import Mathlib

/-!
Verification of the StockPortfolioTracker core (src/script.js).

The source is a single JavaScript file.  We embed its state and the
operations the specification talks about as pure Lean functions:

* the global `portfolio` array becomes a `List Position` (the Ledger);
* the global `stockData` object becomes an association list from symbol
  to `StockRecord` (the price Cache), with JS-object key semantics
  (first occurrence wins on lookup, in-place overwrite on insert);
* JS numbers become exact rationals `ℚ` (the claims under study are
  algebraic relations of the arithmetic the code performs, not
  rounding-level floating-point facts);
* a provider response (the parsed Yahoo-chart JSON the code reads from)
  becomes `Option ProviderResult`, `none` standing for any of the ways
  the `try` block of `fetchStockData` can throw (network failure,
  unparsable body, missing `chart`/`result[0]`/`meta`/`indicators`/
  `quote[0]` structure), while a non-throwing response carries its leaf
  fields (`regularMarketPrice`, `chartPreviousClose`, `timestamp`,
  `close`) as `Option`s, absent leaves being the `undefined` reads the
  code stores without noticing;
* JS property reads that can throw a `TypeError` (`null.field` in
  the validation run by the importer) are embedded as `Except`, the
  thrown error landing in the enclosing `catch` exactly as in the
  handler;
* the sequential `fetchAllData` loop additionally gets an event-trace
  denotation for the temporal claim about ordering and the 500 ms
  politeness delay.
-/

namespace StockTracker

/-- A holding, as stored in the `portfolio` array: `{ symbol, qty, cost }`
where `cost` is the (weighted-average) cost per share. -/
structure Position where
  symbol : String
  qty : ℚ
  cost : ℚ
deriving DecidableEq, Repr

/-- The Ledger: the `portfolio` array, in insertion/display order. -/
abbrev Ledger := List Position

/-- The per-symbol price history stored by `fetchStockData`:
`{ timestamp: result.timestamp, close: result.indicators.quote[0].close }`.
Each series is `none` when the response object lacked that property
(the read yields `undefined` without throwing), and the close series may
contain `null` entries. -/
structure History where
  timestamp : Option (List Nat)
  close : Option (List (Option ℚ))
deriving DecidableEq, Repr

/-- A cache record as written by `fetchStockData`:
`{ price, change, history }`.  `price` is `none` when the response's
`meta` lacked `regularMarketPrice` (the property read is `undefined` and
is stored as such); `change` is `none` when either operand of the
subtraction was `undefined`, i.e. the stored value is `NaN`. -/
structure StockRecord where
  price : Option ℚ
  change : Option ℚ
  history : History
deriving DecidableEq, Repr

/-- The price Cache: the `stockData` object, keyed by symbol. -/
abbrev Cache := List (String × StockRecord)

/-- Lookup of `stockData[symbol]` (JS property read): first entry with that key. -/
def Cache.lookup : Cache → String → Option StockRecord
  | [], _ => none
  | (k, v) :: rest, s => if k = s then some v else Cache.lookup rest s

/-- Write of `stockData[symbol] = record` (JS property write): overwrite in place
if the key exists, otherwise add it at the end. -/
def Cache.insert (c : Cache) (s : String) (r : StockRecord) : Cache :=
  if c.any (fun p => p.1 = s) then
    c.map (fun p => if p.1 = s then (s, r) else p)
  else
    c ++ [(s, r)]

/-- The function `addStock(symbol, qty, cost)` from src/script.js lines 38–52:
`portfolio.find(s => s.symbol === symbol)` finds the first matching
position; if found, its cost becomes the weighted average
`(existing.qty*existing.cost + qty*cost) / (existing.qty + qty)` and its
quantity the sum; otherwise `{symbol, qty, cost}` is pushed at the end.
(The `saveData`/`renderTable`/`fetchStockData` calls touch persistence,
display and the cache, not the ledger.) -/
def addStock : Ledger → String → ℚ → ℚ → Ledger
  | [], symbol, qty, cost => [⟨symbol, qty, cost⟩]
  | s :: rest, symbol, qty, cost =>
    if s.symbol = symbol then
      ⟨s.symbol, s.qty + qty, (s.qty * s.cost + qty * cost) / (s.qty + qty)⟩ :: rest
    else
      s :: addStock rest symbol qty cost

/-- Folding a sequence of `(qty, cost)` merges for one symbol into a
ledger, in order. -/
def mergeMany (sym : String) (init : Ledger) (ms : List (ℚ × ℚ)) : Ledger :=
  ms.foldl (fun p m => addStock p sym m.1 m.2) init

/-- Total quantity of a merge sequence. -/
def totalQty (ms : List (ℚ × ℚ)) : ℚ := (ms.map (fun m => m.1)).sum

/-- Total cost basis of a merge sequence. -/
def totalBasis (ms : List (ℚ × ℚ)) : ℚ := (ms.map (fun m => m.1 * m.2)).sum

/-- The derived valuation summary computed by `updateSummary`
(totals only; writing them into DOM elements is display-layer). -/
structure Summary where
  totalInv : ℚ
  currentVal : ℚ
  hasData : Bool
  totalPl : ℚ
  totalPlPercent : ℚ
deriving DecidableEq, Repr

/-- The value `stockData[symbol] ? stockData[symbol].price : 0` read by
`updateSummary` (and, modulo the `|| {price: 0, change: 0}` default, by
`renderTable`).  A stored record whose `price` is `undefined` is
collapsed to `0` here: `undefined > 0` and `0 > 0` are both `false`, and
the code multiplies with the price only under that `> 0` guard, so the
collapse changes no computed value. -/
def cachedPrice (stockData : Cache) (symbol : String) : ℚ :=
  match Cache.lookup stockData symbol with
  | some d => d.price.getD 0
  | none => 0

/-- One step of the `portfolio.forEach` loop in `updateSummary`
(src/script.js lines 103–110), acting on the accumulator
`(totalInv, currentVal, hasData)`:
`totalInv += qty*cost`; `price = stockData[sym] ? stockData[sym].price : 0`;
`if (price > 0) { currentVal += qty*price; hasData = true }`. -/
def summaryStep (stockData : Cache) (acc : ℚ × ℚ × Bool) (stock : Position) :
    ℚ × ℚ × Bool :=
  let price := cachedPrice stockData stock.symbol
  ( acc.1 + stock.qty * stock.cost,
    if price > 0 then acc.2.1 + stock.qty * price else acc.2.1,
    if price > 0 then true else acc.2.2 )

/-- The function `updateSummary()` from src/script.js lines 98–124, as a pure function
of the current portfolio and cache: accumulate the loop, then
`totalPl = currentVal - totalInv` and
`totalPlPercent = totalInv > 0 ? (totalPl/totalInv)*100 : 0`. -/
def updateSummary (portfolio : Ledger) (stockData : Cache) : Summary :=
  let acc := portfolio.foldl (summaryStep stockData) (0, 0, false)
  let totalPl := acc.2.1 - acc.1
  { totalInv := acc.1
    currentVal := acc.2.1
    hasData := acc.2.2
    totalPl := totalPl
    totalPlPercent := if acc.1 > 0 then totalPl / acc.1 * 100 else 0 }

/-- The current-price table cell rendered by `renderTable`
(src/script.js lines 68–87): `data = stockData[sym] || {price: 0, change: 0}`;
the cell shows the price when `data.price > 0` and the string
`'Loading...'` otherwise. -/
inductive PriceCell where
  | loading
  | shown (p : ℚ)
deriving DecidableEq, Repr

/-- The branch `currentPrice > 0 ? '$'+currentPrice.toFixed(2) : 'Loading...'`
of `renderTable` for one symbol (an absent record defaults to price `0`,
and an `undefined` stored price fails the `> 0` test exactly like `0`,
see `cachedPrice`). -/
def renderPriceCell (stockData : Cache) (symbol : String) : PriceCell :=
  let price := cachedPrice stockData symbol
  if price > 0 then .shown price else .loading

/-- The form submit handler (src/script.js lines 24–35), the public
interface in front of `addStock`: the ticker is uppercased and trimmed,
and `addStock` runs only under the guard
`ticker && quantity > 0 && cost >= 0`; otherwise nothing happens.
Returns the ledger after the handler and whether the merge was applied
(`false` = the input was rejected). -/
def handleSubmit (portfolio : Ledger) (tickerRaw : String) (quantity cost : ℚ) :
    Ledger × Bool :=
  let ticker := tickerRaw.toUpper.trim
  if ticker ≠ "" ∧ quantity > 0 ∧ cost ≥ 0 then
    (addStock portfolio ticker quantity cost, true)
  else
    (portfolio, false)

/-- The function `deleteStock(symbol)` from src/script.js lines 54–59, on the whole
mutable state it can reach: `portfolio = portfolio.filter(s => s.symbol
!== symbol)`; the `stockData` cache is passed through untouched (the
function never mentions it). -/
def deleteStock (portfolio : Ledger) (stockData : Cache) (symbol : String) :
    Ledger × Cache :=
  (portfolio.filter (fun s => s.symbol ≠ symbol), stockData)

/-- What the code reads out of a provider response whose structure is
deep enough not to throw — `json.chart.result[0]`, `result.meta` and
`result.indicators.quote[0]` all present: the leaves
`meta.regularMarketPrice`, `meta.chartPreviousClose`, `result.timestamp`
and `quote[0].close` may each still be absent (`none`), in which case
the property read yields `undefined` without throwing and lines 148–160
run anyway. -/
structure ProviderResult where
  regularMarketPrice : Option ℚ
  chartPreviousClose : Option ℚ
  timestamp : Option (List Nat)
  close : Option (List (Option ℚ))
deriving DecidableEq, Repr

/-- The record `fetchStockData` builds from a non-throwing response
(src/script.js lines 148–160):
`{price: currentPrice, change: currentPrice - previousClose, history}`.
An absent leaf is stored as `undefined`; a subtraction with an
`undefined` operand is `NaN` (`none`). -/
def mkRecord (r : ProviderResult) : StockRecord :=
  { price := r.regularMarketPrice
    change := match r.regularMarketPrice, r.chartPreviousClose with
      | some cp, some pc => some (cp - pc)
      | _, _ => none
    history := { timestamp := r.timestamp, close := r.close } }

/-- The body of the `try` block of `fetchStockData` (src/script.js lines
137–169) up to the cache write: `none` stands for any throwing path
(rejected fetch, unparsable JSON, missing intermediate structure —
`chart`, `result[0]`, `meta`, `indicators`, `quote[0]`); a non-throwing
response, even one with absent leaf fields, reaches the cache write with
`mkRecord`. -/
def fetchBody (resp : Option ProviderResult) : Except Unit StockRecord :=
  match resp with
  | none => .error ()
  | some r => .ok (mkRecord r)

/-- The function `fetchStockData(symbol)` as it affects the cache: the `try` body
stores its record under `symbol`; the `catch` block only logs, so on any
error the cache is left as it was and nothing propagates to the caller. -/
def fetchStockData (stockData : Cache) (symbol : String)
    (resp : Option ProviderResult) : Cache :=
  match fetchBody resp with
  | .ok rec => Cache.insert stockData symbol rec
  | .error _ => stockData

/-- The function `fetchAllData()` (src/script.js lines 128–134) as it affects the
cache: `for (const stock of portfolio) { await fetchStockData(stock.symbol);
await delay(500) }` — one awaited fetch per ledger entry, in ledger
order, with the provider's (deterministic per-symbol) response given by
`provider`. -/
def fetchAllData (stockData : Cache) (portfolio : Ledger)
    (provider : String → Option ProviderResult) : Cache :=
  portfolio.foldl (fun c stock => fetchStockData c stock.symbol (provider stock.symbol)) stockData

/-- An event of the `fetchAllData` loop, for the temporal claim:
either an awaited request for a symbol or an awaited `setTimeout` delay
in milliseconds. -/
inductive FetchEvent where
  | request (symbol : String)
  | delay (ms : Nat)
deriving DecidableEq, Repr

/-- The event trace of `fetchAllData`: the loop awaits
`fetchStockData(stock.symbol)` and then awaits a 500 ms timeout, for each
ledger entry in order; nothing in the loop starts before the previous
await resolves, so the trace is this linear sequence. -/
def fetchAllTrace : Ledger → List FetchEvent
  | [] => []
  | stock :: rest => .request stock.symbol :: .delay 500 :: fetchAllTrace rest

/-- The symbol of a request event, for reading requests off a trace. -/
def requestOf : FetchEvent → Option String
  | .request s => some s
  | .delay _ => none

/-- Total milliseconds of delay events in a trace (a lower bound on the
wall-clock duration of the batch, since every event is awaited). -/
def totalDelay : List FetchEvent → Nat
  | [] => 0
  | .request _ :: rest => totalDelay rest
  | .delay ms :: rest => ms + totalDelay rest

/-- A parsed JSON value, for the import/export boundary. -/
inductive Json where
  | null
  | bool (b : Bool)
  | num (q : ℚ)
  | str (s : String)
  | arr (items : List Json)
  | obj (fields : List (String × Json))

instance (j : Json) : Decidable (j = Json.null) :=
  match j with
  | .null => isTrue rfl
  | .bool _ => isFalse fun h => Json.noConfusion h
  | .num _ => isFalse fun h => Json.noConfusion h
  | .str _ => isFalse fun h => Json.noConfusion h
  | .arr _ => isFalse fun h => Json.noConfusion h
  | .obj _ => isFalse fun h => Json.noConfusion h

/-- Value of the JS property read `j.k` for a receiver known not to be
`null`: `some` the field value on an object that has it, `none` (i.e.
`undefined`) otherwise — primitives are boxed and arrays are objects, so
the read does not throw on them.  The throwing read on `null` is
modelled by `fieldAccess`. -/
def Json.getField : Json → String → Option Json
  | .obj fields, k => fields.lookup k
  | _, _ => none

/-- The JS property read `j.k` with its throwing behaviour: reading a
property of `null` throws a `TypeError` (`undefined` cannot occur as a
parsed JSON value); on every other value the read returns the property
or `undefined`, as in `Json.getField`. -/
def fieldAccess : Json → String → Except Unit (Option Json)
  | .null, _ => .error ()
  | j, k => .ok (j.getField k)

/-- JS truthiness of a possibly-undefined value, as used by the import
validation `item.symbol && item.qty && item.cost`: `undefined`, `null`,
`false`, the number `0` and the empty string are falsy; everything else
(including any object or array) is truthy. -/
def jsTruthy : Option Json → Bool
  | none => false
  | some .null => false
  | some (.bool b) => b
  | some (.num q) => decide (q ≠ 0)
  | some (.str s) => decide (s ≠ "")
  | some (.arr _) => true
  | some (.obj _) => true

/-- The element check of the import handler (src/script.js line 308),
`item.symbol && item.qty && item.cost`, as a boolean of the item's
(non-throwing) field values — the specification-side predicate "the
element carries truthy `symbol`, `qty` and `cost` fields". -/
def validItem (item : Json) : Bool :=
  jsTruthy (item.getField "symbol") && jsTruthy (item.getField "qty")
    && jsTruthy (item.getField "cost")

/-- One evaluation of `item => item.symbol && item.qty && item.cost`
with JS semantics: each property read goes through `fieldAccess`, so a
`null` item throws a `TypeError` at its first read, and `&&`
short-circuits on the first falsy value. -/
def validItemE (item : Json) : Except Unit Bool :=
  match fieldAccess item "symbol" with
  | .error e => .error e
  | .ok s =>
    if jsTruthy s then
      match fieldAccess item "qty" with
      | .error e => .error e
      | .ok q =>
        if jsTruthy q then
          match fieldAccess item "cost" with
          | .error e => .error e
          | .ok c => .ok (jsTruthy c)
        else .ok false
    else .ok false

/-- The call `importedData.every(item => item.symbol && item.qty &&
item.cost)`: elements are checked in order, the first falsy check makes
`every` return `false`, and a thrown `TypeError` (a `null` element)
propagates out of `every` to the handler's `catch`. -/
def everyValid : List Json → Except Unit Bool
  | [] => .ok true
  | item :: rest =>
    match validItemE item with
    | .error e => .error e
    | .ok true => everyValid rest
    | .ok false => .ok false

/-- Reading an imported element back as a position: the handler assigns
the parsed objects to `portfolio` verbatim, so the `symbol`, `qty` and
`cost` fields are whatever the element carries (for elements produced by
the exporter these are exactly a string and two numbers). -/
def posOfJson (item : Json) : Position :=
  { symbol := match item.getField "symbol" with
      | some (.str s) => s
      | _ => ""
    qty := match item.getField "qty" with
      | some (.num q) => q
      | _ => 0
    cost := match item.getField "cost" with
      | some (.num q) => q
      | _ => 0 }

/-- The distinct user-visible outcomes of the import handler
(src/script.js lines 298–332): `parseError` is the catch branch
(`'Error parsing JSON file.'`), reached both on a `JSON.parse` failure
and on a `TypeError` thrown inside the `try` by the validation of a
`null` element; `notAList` is
`'Invalid file format: Not a list of stocks.'`, `schemaError` is
`'Invalid file format: Missing required fields.'`, `cancelled` is the
declined confirm dialog, `restored` is a completed replacement. -/
inductive ImportOutcome where
  | parseError
  | notAList
  | schemaError
  | cancelled
  | restored
deriving DecidableEq, Repr

/-- The change handler of `importInput` on loaded file content:
`JSON.parse` (its failure modelled by the `parsed = none` case) inside
`try`, then the `Array.isArray` check, then `every(item => item.symbol &&
item.qty && item.cost)` — whose `TypeError` on a `null` element lands in
the same `catch` as a parse failure — then the confirm dialog guarding
`portfolio = importedData; saveData(); ...`.  Returns the outcome and the
ledger afterwards. -/
def importFile (parsed : Option Json) (confirmReplace : Bool)
    (portfolio : Ledger) : ImportOutcome × Ledger :=
  match parsed with
  | none => (.parseError, portfolio)
  | some (.arr items) =>
    match everyValid items with
    | .error _ => (.parseError, portfolio)
    | .ok true =>
      if confirmReplace then (.restored, items.map posOfJson)
      else (.cancelled, portfolio)
    | .ok false => (.schemaError, portfolio)
  | some _ => (.notAList, portfolio)

/-- The export handler (src/script.js lines 276–292):
`JSON.stringify(portfolio, null, 2)` — the ledger serialized verbatim,
in order, each position as an object with its `symbol`, `qty` and `cost`
fields.  We work with the JSON value; feeding it back to `importFile`
models `JSON.parse` of the written text, which returns this value. -/
def exportLedger (portfolio : Ledger) : Json :=
  .arr (portfolio.map (fun s =>
    .obj [("symbol", .str s.symbol), ("qty", .num s.qty), ("cost", .num s.cost)]))

/-! ## Lemmas about the Ledger merge -/

theorem addStock_not_found (p : Ledger) (sym : String) (q c : ℚ)
    (h : ∀ s ∈ p, s.symbol ≠ sym) :
    addStock p sym q c = p ++ [⟨sym, q, c⟩] := by
  induction p with
  | nil => rfl
  | cons s rest ih =>
    simp only [addStock, List.cons_append, if_neg (h s (by simp))]
    exact congrArg _ (ih fun t ht => h t (by simp [ht]))

theorem addStock_found (pre rest : Ledger) (sym : String) (q0 c0 q c : ℚ)
    (h : ∀ s ∈ pre, s.symbol ≠ sym) :
    addStock (pre ++ ⟨sym, q0, c0⟩ :: rest) sym q c
      = pre ++ ⟨sym, q0 + q, (q0 * c0 + q * c) / (q0 + q)⟩ :: rest := by
  induction pre with
  | nil => simp [addStock]
  | cons s pre ih =>
    simp only [List.cons_append, addStock, if_neg (h s (by simp))]
    exact congrArg _ (ih fun t ht => h t (by simp [ht]))

theorem mergeMany_single (sym : String) (ms : List (ℚ × ℚ)) :
    ∀ Q B : ℚ, 0 < Q → (∀ m ∈ ms, 0 < m.1) →
    mergeMany sym [⟨sym, Q, B / Q⟩] ms
      = [⟨sym, Q + totalQty ms, (B + totalBasis ms) / (Q + totalQty ms)⟩] := by
  induction ms with
  | nil =>
    intro Q B _ _
    simp [mergeMany, totalQty, totalBasis]
  | cons m ms ih =>
    intro Q B hQ hpos
    have hm : 0 < m.1 := hpos m (by simp)
    have hQ0 : Q ≠ 0 := ne_of_gt hQ
    have hstep : addStock [⟨sym, Q, B / Q⟩] sym m.1 m.2
        = [⟨sym, Q + m.1, (B + m.1 * m.2) / (Q + m.1)⟩] := by
      simp only [addStock, if_true, eq_self_iff_true]
      rw [mul_div_cancel₀ _ hQ0]
    have hfold : mergeMany sym [⟨sym, Q, B / Q⟩] (m :: ms)
        = mergeMany sym [⟨sym, Q + m.1, (B + m.1 * m.2) / (Q + m.1)⟩] ms := by
      simp only [mergeMany, List.foldl_cons, hstep]
    rw [hfold, ih (Q + m.1) (B + m.1 * m.2) (by linarith)
        (fun t ht => hpos t (by simp [ht]))]
    have hq : Q + m.1 + totalQty ms = Q + totalQty (m :: ms) := by
      simp only [totalQty, List.map_cons, List.sum_cons]
      ring
    have hb : B + m.1 * m.2 + totalBasis ms = B + totalBasis (m :: ms) := by
      simp only [totalBasis, List.map_cons, List.sum_cons]
      ring
    rw [hq, hb]

theorem mergeMany_empty_start (sym : String) (ms : List (ℚ × ℚ))
    (hne : ms ≠ []) (hpos : ∀ m ∈ ms, 0 < m.1) :
    mergeMany sym [] ms = [⟨sym, totalQty ms, totalBasis ms / totalQty ms⟩] := by
  match ms, hne with
  | m :: ms, _ =>
    have hm : 0 < m.1 := hpos m (by simp)
    have hstep : addStock [] sym m.1 m.2 = [⟨sym, m.1, (m.1 * m.2) / m.1⟩] := by
      simp [addStock, mul_div_cancel_left₀ _ (ne_of_gt hm)]
    have hfold : mergeMany sym [] (m :: ms)
        = mergeMany sym [⟨sym, m.1, (m.1 * m.2) / m.1⟩] ms := by
      simp only [mergeMany, List.foldl_cons, hstep]
    rw [hfold, mergeMany_single sym ms m.1 (m.1 * m.2) hm
        (fun t ht => hpos t (by simp [ht]))]
    simp [totalQty, totalBasis]

/-- Claim C1: merging `(q, c)` into a ledger already holding a position
`(q0, c0)` for the symbol yields quantity `q0 + q` and average cost
`(q0*c0 + q*c)/(q0 + q)`; folding any nonempty sequence of positive
merges for one symbol yields average cost `Σ(qty*cost)/Σqty`, and the
result is therefore independent of the order of the merges. -/
theorem addStock_weighted_average :
    (∀ (pre rest : Ledger) (sym : String) (q0 c0 q c : ℚ),
      (∀ s ∈ pre, s.symbol ≠ sym) →
      addStock (pre ++ ⟨sym, q0, c0⟩ :: rest) sym q c
        = pre ++ ⟨sym, q0 + q, (q0 * c0 + q * c) / (q0 + q)⟩ :: rest)
    ∧ (∀ (sym : String) (ms : List (ℚ × ℚ)),
      ms ≠ [] → (∀ m ∈ ms, 0 < m.1) →
      mergeMany sym [] ms = [⟨sym, totalQty ms, totalBasis ms / totalQty ms⟩])
    ∧ (∀ (sym : String) (ms ms' : List (ℚ × ℚ)),
      ms.Perm ms' → ms ≠ [] → (∀ m ∈ ms, 0 < m.1) →
      mergeMany sym [] ms = mergeMany sym [] ms') := by
  refine ⟨addStock_found, mergeMany_empty_start, ?_⟩
  intro sym ms ms' hperm hne hpos
  have hne' : ms' ≠ [] := by
    intro h
    exact hne (List.Perm.eq_nil (h ▸ hperm))
  have hpos' : ∀ m ∈ ms', 0 < m.1 := fun m hm => hpos m (hperm.mem_iff.mpr hm)
  rw [mergeMany_empty_start sym ms hne hpos, mergeMany_empty_start sym ms' hne' hpos']
  have hq : totalQty ms = totalQty ms' := List.Perm.sum_eq (hperm.map _)
  have hb : totalBasis ms = totalBasis ms' := List.Perm.sum_eq (hperm.map _)
  rw [hq, hb]

/-- Witness for C1: merging `qty=10,cost=100` then `qty=10,cost=200`
into an empty ledger yields `qty=20, cost=150`. -/
theorem addStock_weighted_average_witness :
    mergeMany "AAPL" [] [(10, 100), (10, 200)] = [⟨"AAPL", 20, 150⟩] := by
  rw [addStock_weighted_average.2.1 "AAPL" [(10, 100), (10, 200)]
    (by decide) (by decide)]
  norm_num [totalQty, totalBasis]

/-! ## Lemmas about the valuation summary -/

theorem summary_foldl (stockData : Cache) (pfl : Ledger) :
    ∀ (a b : ℚ) (h : Bool),
    pfl.foldl (summaryStep stockData) (a, b, h)
      = (a + (pfl.map fun s => s.qty * s.cost).sum,
         b + (pfl.map fun s =>
           if 0 < cachedPrice stockData s.symbol
           then s.qty * cachedPrice stockData s.symbol else 0).sum,
         h || pfl.any fun s => 0 < cachedPrice stockData s.symbol) := by
  induction pfl with
  | nil =>
    intro a b h
    simp
  | cons s rest ih =>
    intro a b h
    have hstep : List.foldl (summaryStep stockData) (a, b, h) (s :: rest)
        = List.foldl (summaryStep stockData)
            (a + s.qty * s.cost,
             if 0 < cachedPrice stockData s.symbol
               then b + s.qty * cachedPrice stockData s.symbol else b,
             if 0 < cachedPrice stockData s.symbol then true else h) rest := by
      simp only [List.foldl_cons]
      rfl
    rw [hstep, ih]
    by_cases hp : 0 < cachedPrice stockData s.symbol
    · simp [hp, add_assoc]
    · simp [hp, add_assoc]

theorem updateSummary_eq (portfolio : Ledger) (stockData : Cache) :
    updateSummary portfolio stockData
      = { totalInv := (portfolio.map fun s => s.qty * s.cost).sum
          currentVal := (portfolio.map fun s =>
            if 0 < cachedPrice stockData s.symbol
            then s.qty * cachedPrice stockData s.symbol else 0).sum
          hasData := portfolio.any fun s => 0 < cachedPrice stockData s.symbol
          totalPl := (portfolio.map fun s =>
              if 0 < cachedPrice stockData s.symbol
              then s.qty * cachedPrice stockData s.symbol else 0).sum
            - (portfolio.map fun s => s.qty * s.cost).sum
          totalPlPercent :=
            if 0 < (portfolio.map fun s => s.qty * s.cost).sum
            then ((portfolio.map fun s =>
                if 0 < cachedPrice stockData s.symbol
                then s.qty * cachedPrice stockData s.symbol else 0).sum
              - (portfolio.map fun s => s.qty * s.cost).sum)
              / (portfolio.map fun s => s.qty * s.cost).sum * 100
            else 0 } := by
  unfold updateSummary
  rw [summary_foldl stockData portfolio 0 0 false]
  simp

/-- Claim C2: `updateSummary` computes `totalInvested` as the
unconditional sum of `qty*cost`; a position contributes `qty*price` to
`totalCurrentValue` and raises `hasAnyPriceData` exactly when the cache
has a price strictly greater than `0` for its symbol;
`totalPL = totalCurrentValue - totalInvested`; `totalPLPercent` is
`totalPL/totalInvested*100` when `totalInvested > 0` and `0` otherwise.
In particular `{AAPL, qty=10, cost=150}` with cached price `180` gives
`1500 / 1800 / 300 / 20`. -/
theorem updateSummary_correct :
    (∀ (portfolio : Ledger) (stockData : Cache),
      (updateSummary portfolio stockData).totalInv
          = (portfolio.map fun s => s.qty * s.cost).sum
        ∧ (updateSummary portfolio stockData).currentVal
          = (portfolio.map fun s =>
              if 0 < cachedPrice stockData s.symbol
              then s.qty * cachedPrice stockData s.symbol else 0).sum
        ∧ ((updateSummary portfolio stockData).hasData = true
          ↔ ∃ s ∈ portfolio, 0 < cachedPrice stockData s.symbol)
        ∧ (updateSummary portfolio stockData).totalPl
          = (updateSummary portfolio stockData).currentVal
            - (updateSummary portfolio stockData).totalInv
        ∧ (updateSummary portfolio stockData).totalPlPercent
          = (if 0 < (updateSummary portfolio stockData).totalInv
             then (updateSummary portfolio stockData).totalPl
               / (updateSummary portfolio stockData).totalInv * 100
             else 0))
    ∧ updateSummary [⟨"AAPL", 10, 150⟩] [("AAPL", ⟨some 180, some 5, ⟨some [], some []⟩⟩)]
        = ⟨1500, 1800, true, 300, 20⟩ := by
  constructor
  · intro portfolio stockData
    rw [updateSummary_eq portfolio stockData]
    refine ⟨rfl, rfl, ?_, rfl, rfl⟩
    simp [List.any_eq_true]
  · rw [updateSummary_eq]
    norm_num [cachedPrice, Cache.lookup]

/-- Claim C3: for every quantity ≤ 0 or cost < 0 the submit handler — the
public interface in front of the merge — rejects the input (the
`InvalidInput` outcome: `addStock` is never called) and the ledger is
returned unchanged. -/
theorem handleSubmit_rejects_invalid (portfolio : Ledger) (ticker : String)
    (quantity cost : ℚ) (h : quantity ≤ 0 ∨ cost < 0) :
    handleSubmit portfolio ticker quantity cost = (portfolio, false) := by
  unfold handleSubmit
  rw [if_neg]
  rintro ⟨-, hq, hc⟩
  rcases h with h | h
  · linarith
  · linarith

/-- Witness for C3: `merge(sym, 0, 100)` and `merge(sym, 5, -1)` are both
rejected with the ledger unchanged. -/
theorem handleSubmit_rejects_invalid_witness :
    ((0:ℚ) ≤ 0 ∧ handleSubmit [] "aapl" 0 100 = ([], false))
    ∧ ((-1:ℚ) < 0 ∧ handleSubmit [⟨"X", 1, 2⟩] "AAPL" 5 (-1) = ([⟨"X", 1, 2⟩], false)) :=
  ⟨⟨le_refl 0, handleSubmit_rejects_invalid [] "aapl" 0 100 (Or.inl (le_refl 0))⟩,
   ⟨by norm_num,
    handleSubmit_rejects_invalid [⟨"X", 1, 2⟩] "AAPL" 5 (-1) (Or.inr (by norm_num))⟩⟩

/-- Claim C4: a position whose symbol has no cache entry still adds
`qty*cost` to `totalInvested`, contributes nothing to
`totalCurrentValue`, does not raise `hasAnyPriceData`, and its row is
rendered in the loading state rather than with price `0`. -/
theorem updateSummary_missing_entry (portfolio : Ledger) (stockData : Cache)
    (s : Position) (h : Cache.lookup stockData s.symbol = none) :
    (updateSummary (portfolio ++ [s]) stockData).totalInv
        = (updateSummary portfolio stockData).totalInv + s.qty * s.cost
    ∧ (updateSummary (portfolio ++ [s]) stockData).currentVal
        = (updateSummary portfolio stockData).currentVal
    ∧ (updateSummary (portfolio ++ [s]) stockData).hasData
        = (updateSummary portfolio stockData).hasData
    ∧ renderPriceCell stockData s.symbol = .loading := by
  have hp : cachedPrice stockData s.symbol = 0 := by
    simp [cachedPrice, h]
  rw [updateSummary_eq, updateSummary_eq]
  refine ⟨?_, ?_, ?_, ?_⟩
  · simp
  · simp [hp]
  · simp [hp]
  · simp [renderPriceCell, hp]

/-- Witness for C4: a `TSLA` position with no cache entry, next to an
`AAPL` position with a cached price. -/
theorem updateSummary_missing_entry_witness :
    (updateSummary [⟨"AAPL", 10, 150⟩, ⟨"TSLA", 2, 300⟩]
        [("AAPL", ⟨some 180, some 5, ⟨some [], some []⟩⟩)]).totalInv
      = (updateSummary [⟨"AAPL", 10, 150⟩] [("AAPL", ⟨some 180, some 5, ⟨some [], some []⟩⟩)]).totalInv
        + (2:ℚ) * 300
    ∧ (updateSummary [⟨"AAPL", 10, 150⟩, ⟨"TSLA", 2, 300⟩]
        [("AAPL", ⟨some 180, some 5, ⟨some [], some []⟩⟩)]).currentVal
      = (updateSummary [⟨"AAPL", 10, 150⟩] [("AAPL", ⟨some 180, some 5, ⟨some [], some []⟩⟩)]).currentVal
    ∧ (updateSummary [⟨"AAPL", 10, 150⟩, ⟨"TSLA", 2, 300⟩]
        [("AAPL", ⟨some 180, some 5, ⟨some [], some []⟩⟩)]).hasData
      = (updateSummary [⟨"AAPL", 10, 150⟩] [("AAPL", ⟨some 180, some 5, ⟨some [], some []⟩⟩)]).hasData
    ∧ renderPriceCell [("AAPL", ⟨some 180, some 5, ⟨some [], some []⟩⟩)] "TSLA" = .loading :=
  updateSummary_missing_entry [⟨"AAPL", 10, 150⟩] [("AAPL", ⟨some 180, some 5, ⟨some [], some []⟩⟩)]
    ⟨"TSLA", 2, 300⟩ (by decide)

/-! ## Import / export -/

theorem validItemE_eq (item : Json) (h : item ≠ .null) :
    validItemE item = .ok (validItem item) := by
  have hfa : ∀ k, fieldAccess item k = .ok (item.getField k) := by
    intro k
    cases item with
    | null => exact absurd rfl h
    | bool b => rfl
    | num q => rfl
    | str s => rfl
    | arr items => rfl
    | obj fields => rfl
  rw [validItemE, hfa, hfa, hfa]
  cases hs : jsTruthy (item.getField "symbol") with
  | false => simp [validItem, hs]
  | true =>
    cases hq : jsTruthy (item.getField "qty") with
    | false => simp [validItem, hs, hq]
    | true => simp [validItem, hs, hq]

theorem everyValid_no_null (items : List Json)
    (h : ∀ item ∈ items, item ≠ .null) :
    everyValid items = .ok (items.all validItem) := by
  induction items with
  | nil => rfl
  | cons item rest ih =>
    rw [everyValid, validItemE_eq item (h item (by simp))]
    cases hv : validItem item with
    | true =>
      rw [ih fun y hy => h y (by simp [hy])]
      simp [hv]
    | false => simp [hv]

theorem everyValid_throws (rest : List Json) :
    ∀ pre : List Json, (∀ x ∈ pre, validItem x = true) →
    everyValid (pre ++ .null :: rest) = .error () := by
  intro pre
  induction pre with
  | nil => intro _; rfl
  | cons x pre ih =>
    intro h
    have hx : validItem x = true := h x (by simp)
    have hxn : x ≠ .null := by
      intro he
      rw [he] at hx
      exact absurd hx (by decide)
    rw [List.cons_append, everyValid, validItemE_eq x hxn, hx]
    exact ih fun y hy => h y (by simp [hy])

/-- Counterexample to C5 as stated: the parseable input `[null]` is a
list whose single element lacks a truthy `symbol` (and `qty`, `cost`)
field, yet the program does not report the schema error — at line 308
`item.symbol` throws a `TypeError` on the `null` element, the `catch` at
line 324 swallows it, and the user sees `'Error parsing JSON file.'`,
i.e. the `MalformedFile` outcome.  (The ledger is still unchanged.) -/
theorem importFile_null_element_cex :
    validItem .null = false
    ∧ importFile (some (.arr [.null])) true [⟨"X", 1, 2⟩]
        = (.parseError, [⟨"X", 1, 2⟩])
    ∧ ImportOutcome.parseError ≠ ImportOutcome.schemaError := by
  refine ⟨by decide, by decide, by decide⟩

/-- Claim C5, amended: unparsable bytes are rejected with `MalformedFile`
and a parsed non-list with `NotAList`; a list containing no `null`
element in which some element lacks a truthy `symbol`, `qty` or `cost`
field is rejected with `SchemaError`; a list with a `null` element
(every element before it passing the check) is rejected with
`MalformedFile`, because the `TypeError` thrown by reading a property of
`null` lands in the same catch as a parse failure.  In every one of
these failure cases the ledger is left completely unchanged — a
bad import is never partially applied. -/
theorem importFile_failure_modes (portfolio : Ledger) (confirm : Bool) :
    importFile none confirm portfolio = (.parseError, portfolio)
    ∧ (∀ j : Json, (∀ items, j ≠ .arr items) →
        importFile (some j) confirm portfolio = (.notAList, portfolio))
    ∧ (∀ items : List Json, (∀ item ∈ items, item ≠ .null) →
        ¬ items.all validItem = true →
        importFile (some (.arr items)) confirm portfolio = (.schemaError, portfolio))
    ∧ (∀ pre rest : List Json, (∀ x ∈ pre, validItem x = true) →
        importFile (some (.arr (pre ++ .null :: rest))) confirm portfolio
          = (.parseError, portfolio)) := by
  refine ⟨rfl, ?_, ?_, ?_⟩
  · intro j hj
    cases j with
    | arr items => exact absurd rfl (hj items)
    | null => rfl
    | bool b => rfl
    | num q => rfl
    | str s => rfl
    | obj fields => rfl
  · intro items hnn hval
    rw [importFile, everyValid_no_null items hnn]
    rw [Bool.eq_false_iff.mpr hval]
  · intro pre rest hpre
    rw [importFile, everyValid_throws rest pre hpre]

/-- Witness for C5 (amended): an unparsable file; a JSON number at top
level; a null-free list whose element lacks the `qty`/`cost` fields; and
a list whose second element is `null` after a valid first element — each
rejected with its outcome and the ledger intact. -/
theorem importFile_failure_modes_witness :
    importFile none true [⟨"X", 1, 2⟩] = (.parseError, [⟨"X", 1, 2⟩])
    ∧ importFile (some (.num 5)) true [⟨"X", 1, 2⟩] = (.notAList, [⟨"X", 1, 2⟩])
    ∧ importFile (some (.arr [.obj [("symbol", .str "A")]])) true [⟨"X", 1, 2⟩]
        = (.schemaError, [⟨"X", 1, 2⟩])
    ∧ importFile (some (.arr [.obj [("symbol", .str "A"), ("qty", .num 1),
          ("cost", .num 2)], .null])) true [⟨"X", 1, 2⟩]
        = (.parseError, [⟨"X", 1, 2⟩]) :=
  ⟨(importFile_failure_modes [⟨"X", 1, 2⟩] true).1,
   (importFile_failure_modes [⟨"X", 1, 2⟩] true).2.1 (.num 5)
     (fun _ h => Json.noConfusion h),
   (importFile_failure_modes [⟨"X", 1, 2⟩] true).2.2.1 [.obj [("symbol", .str "A")]]
     (by decide) (by decide),
   (importFile_failure_modes [⟨"X", 1, 2⟩] true).2.2.2
     [.obj [("symbol", .str "A"), ("qty", .num 1), ("cost", .num 2)]] []
     (by decide)⟩

/-- Counterexample to C6 as stated: the one-position ledger
`[{A, qty 1, cost 0}]` meets the claim's validity condition (non-empty
symbol, quantity > 0, cost ≥ 0), yet importing its own export fails with
the schema error — the number `0` is not truthy — so the export/import
round trip does not succeed and does not reproduce the ledger. -/
theorem export_import_roundtrip_cex :
    (("A":String) ≠ "" ∧ (0:ℚ) < 1 ∧ (0:ℚ) ≤ 0)
    ∧ importFile (some (exportLedger [⟨"A", 1, 0⟩])) true []
        = (.schemaError, []) := by
  constructor
  · exact ⟨by decide, by decide, le_refl 0⟩
  · decide

theorem validItem_export (s : Position) (hsym : s.symbol ≠ "")
    (hq : s.qty ≠ 0) (hc : s.cost ≠ 0) :
    validItem (.obj [("symbol", .str s.symbol), ("qty", .num s.qty),
      ("cost", .num s.cost)]) = true := by
  simp [validItem, Json.getField, List.lookup, jsTruthy, hsym, hq, hc]

theorem posOfJson_export (s : Position) :
    posOfJson (.obj [("symbol", .str s.symbol), ("qty", .num s.qty),
      ("cost", .num s.cost)]) = s := by
  simp [posOfJson, Json.getField, List.lookup]

/-- Claim C6, amended: for every ledger whose positions have a non-empty
symbol, positive quantity and *positive* cost, importing the export
succeeds and reproduces the ledger verbatim (in particular the same
symbols, quantities and costs, whatever the insertion order was).  The
claim's `cost ≥ 0` bound is refuted by `export_import_roundtrip_cex`:
a cost of exactly `0` fails the truthiness schema check on import. -/
theorem export_import_roundtrip (portfolio p0 : Ledger)
    (h : ∀ s ∈ portfolio, s.symbol ≠ "" ∧ 0 < s.qty ∧ 0 < s.cost) :
    importFile (some (exportLedger portfolio)) true p0 = (.restored, portfolio) := by
  have hall : (portfolio.map fun s => Json.obj [("symbol", .str s.symbol),
      ("qty", .num s.qty), ("cost", .num s.cost)]).all validItem = true := by
    rw [List.all_eq_true]
    intro j hj
    obtain ⟨s, hs, rfl⟩ := List.mem_map.mp hj
    exact validItem_export s (h s hs).1 (ne_of_gt (h s hs).2.1) (ne_of_gt (h s hs).2.2)
  have hmap : (portfolio.map fun s => Json.obj [("symbol", .str s.symbol),
      ("qty", .num s.qty), ("cost", .num s.cost)]).map posOfJson = portfolio := by
    rw [List.map_map]
    clear h hall
    induction portfolio with
    | nil => rfl
    | cons s rest ih =>
      simp only [List.map_cons, Function.comp_apply, posOfJson_export]
      exact congrArg _ ih
  have hnn : ∀ item ∈ (portfolio.map fun s => Json.obj [("symbol", .str s.symbol),
      ("qty", .num s.qty), ("cost", .num s.cost)]), item ≠ .null := by
    intro item hitem
    obtain ⟨s, _, rfl⟩ := List.mem_map.mp hitem
    exact fun hc => Json.noConfusion hc
  have hok : everyValid (portfolio.map fun s => Json.obj [("symbol", .str s.symbol),
      ("qty", .num s.qty), ("cost", .num s.cost)]) = .ok true := by
    rw [everyValid_no_null _ hnn, hall]
  simp only [exportLedger, importFile, hok, hmap, eq_self_iff_true, if_true]

/-- Witness for C6 (amended): a two-position ledger with positive costs
round-trips through export and import. -/
theorem export_import_roundtrip_witness :
    importFile (some (exportLedger [⟨"A", 2, 3⟩, ⟨"B", 1, 4⟩])) true []
      = (.restored, [⟨"A", 2, 3⟩, ⟨"B", 1, 4⟩]) :=
  export_import_roundtrip [⟨"A", 2, 3⟩, ⟨"B", 1, 4⟩] [] (by decide)

/-! ## Lemmas about the cache and the fetch loop -/

theorem lookup_overwrite_self (c : Cache) (s : String) (r : StockRecord)
    (h : c.any (fun p => p.1 = s) = true) :
    Cache.lookup (c.map fun p => if p.1 = s then (s, r) else p) s = some r := by
  induction c with
  | nil => simp at h
  | cons p rest ih =>
    obtain ⟨k, v⟩ := p
    simp only [List.any_cons, Bool.or_eq_true, decide_eq_true_eq] at h
    simp only [List.map_cons]
    by_cases hp : k = s
    · rw [if_pos hp]
      simp [Cache.lookup]
    · rw [if_neg hp]
      simp only [Cache.lookup]
      rw [if_neg hp]
      refine ih ?_
      rcases h with h | h
      · exact absurd h hp
      · exact h

theorem lookup_overwrite_other (c : Cache) (s x : String) (r : StockRecord)
    (hx : x ≠ s) :
    Cache.lookup (c.map fun p => if p.1 = s then (s, r) else p) x
      = Cache.lookup c x := by
  induction c with
  | nil => rfl
  | cons p rest ih =>
    obtain ⟨k, v⟩ := p
    simp only [List.map_cons]
    by_cases hp : k = s
    · rw [if_pos hp]
      simp only [Cache.lookup]
      rw [if_neg fun hsx => hx hsx.symm, if_neg fun (hkx : k = x) => hx (hkx ▸ hp)]
      exact ih
    · rw [if_neg hp]
      simp only [Cache.lookup]
      by_cases hkx : k = x
      · rw [if_pos hkx, if_pos hkx]
      · rw [if_neg hkx, if_neg hkx]
        exact ih

theorem lookup_append_self (c : Cache) (s : String) (r : StockRecord)
    (h : ∀ p ∈ c, p.1 ≠ s) :
    Cache.lookup (c ++ [(s, r)]) s = some r := by
  induction c with
  | nil => simp [Cache.lookup]
  | cons p rest ih =>
    obtain ⟨k, v⟩ := p
    have hk : k ≠ s := h (k, v) (by simp)
    simp only [List.cons_append, Cache.lookup, if_neg hk]
    exact ih fun q hq => h q (by simp [hq])

theorem lookup_append_other (c : Cache) (s x : String) (r : StockRecord)
    (hx : x ≠ s) :
    Cache.lookup (c ++ [(s, r)]) x = Cache.lookup c x := by
  induction c with
  | nil =>
    show (if s = x then some r else Cache.lookup [] x) = Cache.lookup [] x
    rw [if_neg fun hsx => hx hsx.symm]
  | cons p rest ih =>
    obtain ⟨k, v⟩ := p
    simp only [List.cons_append, Cache.lookup]
    by_cases hkx : k = x
    · rw [if_pos hkx, if_pos hkx]
    · rw [if_neg hkx, if_neg hkx]
      exact ih

theorem Cache.lookup_insert (c : Cache) (s x : String) (r : StockRecord) :
    Cache.lookup (Cache.insert c s r) x
      = if x = s then some r else Cache.lookup c x := by
  unfold Cache.insert
  by_cases hany : c.any (fun p => p.1 = s) = true
  · rw [if_pos hany]
    by_cases hx : x = s
    · subst hx
      rw [if_pos rfl]
      exact lookup_overwrite_self c x r hany
    · rw [if_neg hx]
      exact lookup_overwrite_other c s x r hx
  · rw [if_neg hany]
    by_cases hx : x = s
    · subst hx
      rw [if_pos rfl]
      refine lookup_append_self c x r fun p hp hps => hany ?_
      rw [List.any_eq_true]
      exact ⟨p, hp, by simp [hps]⟩
    · rw [if_neg hx]
      exact lookup_append_other c s x r hx

theorem fetchStockData_lookup_other (cache : Cache) (sym x : String)
    (resp : Option ProviderResult) (hx : x ≠ sym) :
    Cache.lookup (fetchStockData cache sym resp) x = Cache.lookup cache x := by
  unfold fetchStockData
  cases fetchBody resp with
  | ok rec => rw [Cache.lookup_insert, if_neg hx]
  | error e => rfl

theorem fetchStockData_lookup_self (cache : Cache) (sym : String)
    (resp : Option ProviderResult) :
    Cache.lookup (fetchStockData cache sym resp) sym
      = match resp with
        | some r => some (mkRecord r)
        | none => Cache.lookup cache sym := by
  cases resp with
  | some r =>
    show Cache.lookup (Cache.insert cache sym (mkRecord r)) sym = some (mkRecord r)
    rw [Cache.lookup_insert, if_pos rfl]
  | none => rfl

/-- Full characterization of the cache after a batch refresh: a symbol
fetched during the batch ends at the provider's record when the provider
answers, and at its prior entry when every fetch of it fails; a symbol
not in the portfolio is untouched. -/
theorem fetchAllData_lookup (portfolio : Ledger) :
    ∀ (cache : Cache) (provider : String → Option ProviderResult) (x : String),
    Cache.lookup (fetchAllData cache portfolio provider) x
      = if portfolio.any (fun st => st.symbol = x) then
          match provider x with
          | some r => some (mkRecord r)
          | none => Cache.lookup cache x
        else Cache.lookup cache x := by
  induction portfolio with
  | nil =>
    intro cache provider x
    simp [fetchAllData]
  | cons st rest ih =>
    intro cache provider x
    have hfold : fetchAllData cache (st :: rest) provider
        = fetchAllData (fetchStockData cache st.symbol (provider st.symbol)) rest provider := rfl
    rw [hfold, ih]
    by_cases hx : st.symbol = x
    · subst hx
      have hcond : ((st :: rest).any fun s => s.symbol = st.symbol) = true := by
        simp
      rw [if_pos hcond]
      by_cases hrest : (rest.any fun s => s.symbol = st.symbol) = true
      · rw [if_pos hrest]
        cases hprov : provider st.symbol with
        | some r => rfl
        | none => simp [fetchStockData_lookup_self]
      · rw [if_neg hrest]
        rw [fetchStockData_lookup_self]
    · have hother : Cache.lookup (fetchStockData cache st.symbol (provider st.symbol)) x
          = Cache.lookup cache x :=
        fetchStockData_lookup_other cache st.symbol x (provider st.symbol)
          fun hxs => hx hxs.symm
      have hcond : ((st :: rest).any fun s => s.symbol = x)
          = (rest.any fun s => s.symbol = x) := by
        simp [hx]
      rw [hcond, hother]

/-- Counterexample to C7 as stated: a response that throws nowhere but
carries none of the leaf fields — `meta` present without
`regularMarketPrice`/`chartPreviousClose`, `quote[0]` without `close` —
is a failed fetch in the claim's sense (missing expected fields, no
usable price), yet lines 148–160 run and line 152 *overwrites* the
symbol's prior valid cache entry with the corrupt record
`{price: undefined, change: NaN, history: {timestamp: undefined,
close: undefined}}`.  After the batch the symbol has neither "no entry"
nor "its prior entry, unchanged". -/
theorem fetchAllData_missing_fields_cex :
    Cache.lookup (fetchAllData [("AAPL", ⟨some 180, some 5, ⟨some [], some []⟩⟩)]
        [⟨"AAPL", 10, 150⟩] fun _ => some ⟨none, none, none, none⟩) "AAPL"
      = some ⟨none, none, ⟨none, none⟩⟩
    ∧ Cache.lookup (fetchAllData [("AAPL", ⟨some 180, some 5, ⟨some [], some []⟩⟩)]
        [⟨"AAPL", 10, 150⟩] fun _ => some ⟨none, none, none, none⟩) "AAPL"
      ≠ Cache.lookup [("AAPL", ⟨some 180, some 5, ⟨some [], some []⟩⟩)] "AAPL"
    ∧ Cache.lookup (fetchAllData [("AAPL", ⟨some 180, some 5, ⟨some [], some []⟩⟩)]
        [⟨"AAPL", 10, 150⟩] fun _ => some ⟨none, none, none, none⟩) "AAPL"
      ≠ none := by
  refine ⟨by decide, by decide, by decide⟩

/-- Claim C7, amended: one symbol whose fetch *throws* never poisons a
batch refresh: the batch is a total function of the responses (every
throwing path — network failure, unparsable body, missing
`chart`/`result[0]`/`meta`/`indicators`/`quote[0]` structure — is
absorbed by the per-symbol catch in `fetchBody`/`fetchStockData`), every
symbol whose provider answers ends with the stored record built from its
response (a valid record whenever the response carried its fields), and
a symbol whose fetch throws — or that is not fetched at all — keeps
exactly its prior cache entry (or continues to have none).  For a
non-throwing response with missing leaf fields the code stores a record
with an `undefined` price instead, overwriting the prior entry
(`fetchAllData_missing_fields_cex`). -/
theorem fetchAllData_failure_isolation :
    (∀ (cache : Cache) (portfolio : Ledger) (provider : String → Option ProviderResult)
        (x : String),
      provider x = none →
      Cache.lookup (fetchAllData cache portfolio provider) x = Cache.lookup cache x)
    ∧ (∀ (cache : Cache) (portfolio : Ledger) (provider : String → Option ProviderResult)
        (x : String),
      (∀ st ∈ portfolio, st.symbol ≠ x) →
      Cache.lookup (fetchAllData cache portfolio provider) x = Cache.lookup cache x)
    ∧ (∀ (cache : Cache) (portfolio : Ledger) (provider : String → Option ProviderResult)
        (st : Position) (r : ProviderResult),
      st ∈ portfolio → provider st.symbol = some r →
      Cache.lookup (fetchAllData cache portfolio provider) st.symbol
        = some (mkRecord r)) := by
  refine ⟨?_, ?_, ?_⟩
  · intro cache portfolio provider x hfail
    rw [fetchAllData_lookup portfolio cache provider x, hfail]
    by_cases hmem : (portfolio.any fun st => st.symbol = x) = true
    · rw [if_pos hmem]
    · rw [if_neg hmem]
  · intro cache portfolio provider x hnot
    rw [fetchAllData_lookup portfolio cache provider x, if_neg]
    intro hmem
    obtain ⟨st, hst, hsym⟩ := List.any_eq_true.mp hmem
    exact hnot st hst (by simpa using hsym)
  · intro cache portfolio provider st r hmem hprov
    rw [fetchAllData_lookup portfolio cache provider st.symbol, hprov, if_pos]
    rw [List.any_eq_true]
    exact ⟨st, hmem, by simp⟩

/-- Witness for C7: three symbols where the provider fails on the
second; the batch leaves fetched records for the first and third and no
entry for the second. -/
theorem fetchAllData_failure_isolation_witness :
    Cache.lookup (fetchAllData [] [⟨"A", 1, 1⟩, ⟨"B", 1, 1⟩, ⟨"C", 1, 1⟩]
        fun s => if s = "B" then none else some ⟨some 100, some 90, some [], some []⟩) "B"
      = Cache.lookup [] "B"
    ∧ Cache.lookup (fetchAllData [] [⟨"A", 1, 1⟩, ⟨"B", 1, 1⟩, ⟨"C", 1, 1⟩]
        fun s => if s = "B" then none else some ⟨some 100, some 90, some [], some []⟩) "A"
      = some (mkRecord ⟨some 100, some 90, some [], some []⟩)
    ∧ Cache.lookup (fetchAllData [] [⟨"A", 1, 1⟩, ⟨"B", 1, 1⟩, ⟨"C", 1, 1⟩]
        fun s => if s = "B" then none else some ⟨some 100, some 90, some [], some []⟩) "C"
      = some (mkRecord ⟨some 100, some 90, some [], some []⟩) :=
  ⟨fetchAllData_failure_isolation.1 [] [⟨"A", 1, 1⟩, ⟨"B", 1, 1⟩, ⟨"C", 1, 1⟩]
      (fun s => if s = "B" then none else some ⟨some 100, some 90, some [], some []⟩) "B" (by decide),
   fetchAllData_failure_isolation.2.2 [] [⟨"A", 1, 1⟩, ⟨"B", 1, 1⟩, ⟨"C", 1, 1⟩]
      (fun s => if s = "B" then none else some ⟨some 100, some 90, some [], some []⟩) ⟨"A", 1, 1⟩
      ⟨some 100, some 90, some [], some []⟩ (by decide) (by decide),
   fetchAllData_failure_isolation.2.2 [] [⟨"A", 1, 1⟩, ⟨"B", 1, 1⟩, ⟨"C", 1, 1⟩]
      (fun s => if s = "B" then none else some ⟨some 100, some 90, some [], some []⟩) ⟨"C", 1, 1⟩
      ⟨some 100, some 90, some [], some []⟩ (by decide) (by decide)⟩

/-- Claim C8: when the provider responds successfully carrying
`currentPrice`, `previousClose` and the history series, `fetchStockData`
builds exactly `{price: currentPrice, change: currentPrice -
previousClose, history}` (`mkRecord`), stores it under the symbol as a
full replacement of any previous record, leaves every other symbol
alone, and the `try` body completes successfully. -/
theorem fetchStockData_success (cache : Cache) (symbol : String)
    (r : ProviderResult) (cp pc : ℚ) (ts : List Nat) (cl : List (Option ℚ))
    (hcp : r.regularMarketPrice = some cp) (hpc : r.chartPreviousClose = some pc)
    (hts : r.timestamp = some ts) (hcl : r.close = some cl) :
    fetchBody (some r) = .ok (mkRecord r)
    ∧ mkRecord r = ⟨some cp, some (cp - pc), ⟨some ts, some cl⟩⟩
    ∧ fetchStockData cache symbol (some r) = Cache.insert cache symbol (mkRecord r)
    ∧ Cache.lookup (fetchStockData cache symbol (some r)) symbol = some (mkRecord r)
    ∧ (∀ x, x ≠ symbol →
        Cache.lookup (fetchStockData cache symbol (some r)) x = Cache.lookup cache x) := by
  refine ⟨rfl, ?_, rfl, ?_, ?_⟩
  · rw [mkRecord, hcp, hpc, hts, hcl]
  · show Cache.lookup (Cache.insert cache symbol (mkRecord r)) symbol = _
    rw [Cache.lookup_insert, if_pos rfl]
  · intro x hx
    show Cache.lookup (Cache.insert cache symbol (mkRecord r)) x = _
    rw [Cache.lookup_insert, if_neg hx]

/-- Witness for C8: a successful `AAPL` fetch with price 180 and
previous close 175 yields the record with change 5, replaces the old
`AAPL` record and leaves `MSFT` untouched. -/
theorem fetchStockData_success_witness :
    mkRecord ⟨some 180, some 175, some [1000], some [some 180]⟩
      = ⟨some 180, some ((180:ℚ) - 175), ⟨some [1000], some [some 180]⟩⟩
    ∧ Cache.lookup (fetchStockData [("AAPL", ⟨some 1, some 0, ⟨some [], some []⟩⟩), ("MSFT", ⟨some 2, some 0, ⟨some [], some []⟩⟩)]
        "AAPL" (some ⟨some 180, some 175, some [1000], some [some 180]⟩)) "AAPL"
      = some (mkRecord ⟨some 180, some 175, some [1000], some [some 180]⟩)
    ∧ Cache.lookup (fetchStockData [("AAPL", ⟨some 1, some 0, ⟨some [], some []⟩⟩), ("MSFT", ⟨some 2, some 0, ⟨some [], some []⟩⟩)]
        "AAPL" (some ⟨some 180, some 175, some [1000], some [some 180]⟩)) "MSFT"
      = Cache.lookup [("AAPL", ⟨some 1, some 0, ⟨some [], some []⟩⟩), ("MSFT", ⟨some 2, some 0, ⟨some [], some []⟩⟩)] "MSFT" :=
  ⟨(fetchStockData_success [("AAPL", ⟨some 1, some 0, ⟨some [], some []⟩⟩), ("MSFT", ⟨some 2, some 0, ⟨some [], some []⟩⟩)]
      "AAPL" ⟨some 180, some 175, some [1000], some [some 180]⟩ 180 175 [1000]
      [some 180] rfl rfl rfl rfl).2.1,
   (fetchStockData_success [("AAPL", ⟨some 1, some 0, ⟨some [], some []⟩⟩), ("MSFT", ⟨some 2, some 0, ⟨some [], some []⟩⟩)]
      "AAPL" ⟨some 180, some 175, some [1000], some [some 180]⟩ 180 175 [1000]
      [some 180] rfl rfl rfl rfl).2.2.2.1,
   (fetchStockData_success [("AAPL", ⟨some 1, some 0, ⟨some [], some []⟩⟩), ("MSFT", ⟨some 2, some 0, ⟨some [], some []⟩⟩)]
      "AAPL" ⟨some 180, some 175, some [1000], some [some 180]⟩ 180 175 [1000]
      [some 180] rfl rfl rfl rfl).2.2.2.2 "MSFT" (by decide)⟩

theorem fetchAllTrace_requests (portfolio : Ledger) :
    (fetchAllTrace portfolio).filterMap requestOf = portfolio.map fun s => s.symbol := by
  induction portfolio with
  | nil => rfl
  | cons st rest ih =>
    simp only [fetchAllTrace, List.filterMap_cons, requestOf, List.map_cons, ih]

theorem fetchAllTrace_delay_total (portfolio : Ledger) :
    totalDelay (fetchAllTrace portfolio) = 500 * portfolio.length := by
  induction portfolio with
  | nil => rfl
  | cons st rest ih =>
    simp only [fetchAllTrace, totalDelay, ih, List.length_cons]
    ring

theorem fetchAllTrace_paced (portfolio : Ledger) :
    List.Chain' (fun a b => ∀ s, a = .request s → b = .delay 500)
      (fetchAllTrace portfolio) := by
  induction portfolio with
  | nil => exact List.chain'_nil
  | cons st rest ih =>
    rw [fetchAllTrace]
    refine List.chain'_cons.mpr ⟨fun s _ => rfl, ?_⟩
    refine List.chain'_cons'.mpr ⟨?_, ih⟩
    intro b _ s hcontra
    exact FetchEvent.noConfusion hcontra

/-- Claim C9: the batch refresh is strictly sequential: its event trace is
a single linear sequence whose awaited requests occur in ledger order
(so no two fetches overlap), every request is immediately followed by
the awaited 500 ms delay before the next request, and the total delay —
a floor on the batch's wall-clock time — is `500 * n ≥ (n-1) * 500`. -/
theorem fetchAllData_sequential (portfolio : Ledger) :
    (fetchAllTrace portfolio).filterMap requestOf = portfolio.map (fun s => s.symbol)
    ∧ List.Chain' (fun a b => ∀ s, a = .request s → b = .delay 500)
        (fetchAllTrace portfolio)
    ∧ totalDelay (fetchAllTrace portfolio) = 500 * portfolio.length
    ∧ (portfolio.length - 1) * 500 ≤ totalDelay (fetchAllTrace portfolio) := by
  refine ⟨fetchAllTrace_requests portfolio, fetchAllTrace_paced portfolio,
    fetchAllTrace_delay_total portfolio, ?_⟩
  rw [fetchAllTrace_delay_total portfolio]
  omega

/-- Witness for C9: the trace facts evaluated on a two-position ledger. -/
theorem fetchAllData_sequential_witness :
    (fetchAllTrace [⟨"A", 1, 1⟩, ⟨"B", 2, 2⟩]).filterMap requestOf = ["A", "B"]
    ∧ totalDelay (fetchAllTrace [⟨"A", 1, 1⟩, ⟨"B", 2, 2⟩]) = 1000 :=
  ⟨(fetchAllData_sequential [⟨"A", 1, 1⟩, ⟨"B", 2, 2⟩]).1,
   (fetchAllData_sequential [⟨"A", 1, 1⟩, ⟨"B", 2, 2⟩]).2.2.1⟩

/-- Claim C10: `deleteStock` only filters the ledger: the price cache it
returns is the very cache it was given — the removed symbol's entry (if
any) is retained as a stale entry and no other symbol's entry changes. -/
theorem deleteStock_cache_frame (portfolio : Ledger) (stockData : Cache)
    (symbol : String) :
    (deleteStock portfolio stockData symbol).2 = stockData
    ∧ (∀ x, Cache.lookup (deleteStock portfolio stockData symbol).2 x
        = Cache.lookup stockData x)
    ∧ Cache.lookup (deleteStock portfolio stockData symbol).2 symbol
        = Cache.lookup stockData symbol :=
  ⟨rfl, fun _ => rfl, rfl⟩

end StockTracker


